import Mathlib

/-!
Verification development for the `expirebot` maubot plugin
(`src/expirebot/bot.py`, `src/expirebot/db.py`).

The plugin tracks messages in Matrix rooms and redacts each message once it
is older than the room's configured TTL.  We give a shallow embedding of the
relevant code:

* `parse_duration` embeds the regex-based duration parser (bot.py, lines
  15-35).  The Python regex
  `^((\d+?)d)?\s*((\d+?)h)?\s*((\d+?)m)?\s*((\d+?)s)?$` is matched with
  `fullmatch` against the stripped input.  Because each group is a digit run
  followed by a fixed non-digit unit letter, the lazy quantifiers cannot
  change which strings match or which digits each group captures, so the
  regex is embedded as a deterministic four-stage matcher: each stage takes
  the maximal digit run and checks the following unit letter, and `\s*` gaps
  are `dropWhile` on a whitespace class.  The character classes are
  Python's Unicode ones: `\d` is the Unicode decimal-digit (Nd) class,
  embedded as the table `ndZeros` of zero-digit code points, and `\s` and
  `str.strip()` use CPython's Unicode whitespace table `wsCodes`.
  `datetime.timedelta` raises `OverflowError` beyond 999,999,999 days
  23:59:59 (`timedeltaMaxSec` in seconds); within the bound the total
  seconds fit an IEEE double exactly, so `int(td.total_seconds() * 1000)`
  is the round-to-nearest-even double of the exact millisecond total,
  embedded by `roundFloat`.
* `Store` embeds the two tables created by `upgrade_v1` in db.py:
  `room_expiry_times(room_id PRIMARY KEY, expiry_msec)` and
  `events(event_id PRIMARY KEY, room_id REFERENCES room_expiry_times
  ON DELETE CASCADE)`, as association lists.
* `redactGo` embeds `_redact_with_backoff` (bot.py, lines 83-113) over a
  discrete millisecond clock: the event-loop clock and sleeps become explicit
  clock arithmetic (Python's float seconds scaled to integer milliseconds),
  the remote `client.redact` outcome and duration for each attempt are
  oracles, and the capacity-1 semaphore is a no-op because the run is
  single-caller.
* `sweepPass` embeds one pass of `_process_expirations` (bot.py, lines
  115-155).  Batching only inserts sleeps between batches and does not touch
  the store, so a pass is a fold over the join rows; the remote
  `client.get_event` timestamp fetch and the actuator result are oracles.
  Python's possibly-negative `now_ms - expiration_ms` cutoff is embedded with
  truncated `Nat` subtraction, which yields the same result of the comparison
  `timestamp < cutoff` for non-negative timestamps.
* `can_use_command`, `cmd_expire_set`, `cmd_expire_unset`,
  `track_expiring_message`, `handle_join`, `handle_leave` embed the
  corresponding handlers; the remote power-levels fetch is an `Except`
  oracle, and the levels object exposes `get_user_level` as a function field
  together with the optional `redact` attribute (`getattr(levels, 'redact',
  50)`).
-/

/-- ASCII whitespace class: the characters the specification's digits-only
grammar can involve.  Used by the claim-side grammar `DurationGrammar`. -/
def isSpace (c : Char) : Bool :=
  c = ' ' || c = '\t' || c = '\n' || c = '\r' || c = '\x0b' || c = '\x0c'

/-- Code points Python's `str.strip()` and the regex class `\s` treat as
whitespace on `str` (CPython's Unicode whitespace table: ASCII whitespace,
the separator controls 0x1C-0x1F, NEL, NO-BREAK SPACE, OGHAM SPACE MARK,
the U+2000 spaces, LINE and PARAGRAPH SEPARATOR, NARROW NO-BREAK SPACE,
MEDIUM MATHEMATICAL SPACE, IDEOGRAPHIC SPACE). -/
def wsCodes : List Nat :=
  [9, 10, 11, 12, 13, 28, 29, 30, 31, 32, 0x85, 0xA0, 0x1680,
   0x2000, 0x2001, 0x2002, 0x2003, 0x2004, 0x2005, 0x2006, 0x2007, 0x2008,
   0x2009, 0x200A, 0x2028, 0x2029, 0x202F, 0x205F, 0x3000]

/-- Python's whitespace class (`\s` on `str`, `str.strip()`). -/
def isSpacePy (c : Char) : Bool := wsCodes.contains c.toNat

/-- Zero-digit code points of the Unicode decimal-digit (Nd) runs; each
run is the ten consecutive code points from its zero.  This is the class
Python's `\d` matches on `str`; the table goes through Unicode 16, a
superset of the table of any current CPython. -/
def ndZeros : List Nat :=
  [0x30, 0x660, 0x6F0, 0x7C0, 0x966, 0x9E6, 0xA66, 0xAE6, 0xB66, 0xBE6,
   0xC66, 0xCE6, 0xD66, 0xDE6, 0xE50, 0xED0, 0xF20, 0x1040, 0x1090, 0x17E0,
   0x1810, 0x1946, 0x19D0, 0x1A80, 0x1A90, 0x1B50, 0x1BB0, 0x1C40, 0x1C50,
   0xA620, 0xA8D0, 0xA900, 0xA9D0, 0xA9F0, 0xAA50, 0xABF0, 0xFF10,
   0x104A0, 0x10D30, 0x10D40, 0x11066, 0x110F0, 0x11136, 0x111D0, 0x112F0,
   0x11450, 0x114D0, 0x11650, 0x116C0, 0x116D0, 0x11730, 0x118E0, 0x11950,
   0x11BF0, 0x11C50, 0x11D50, 0x11DA0, 0x11F50, 0x16A60, 0x16AC0, 0x16B50,
   0x1CCF0, 0x1D7CE, 0x1D7D8, 0x1D7E2, 0x1D7EC, 0x1D7F6, 0x1E140, 0x1E2F0,
   0x1E4F0, 0x1E5F1, 0x1E950, 0x1FBF0]

/-- The decimal value of a Unicode digit, `none` for a non-digit: the
per-character behaviour of Python's `\d` and of `int()` on matched
groups. -/
def pyDigitVal (c : Char) : Option Nat :=
  (ndZeros.find? (fun z => z ≤ c.toNat && c.toNat < z + 10)).map (fun z => c.toNat - z)

/-- Python's decimal-digit class (`\d` on `str`). -/
def isDigitPy (c : Char) : Bool := (pyDigitVal c).isSome

/-- Numeric value of a decimal digit string, as Python's `int` on the
captured group (any Unicode decimal digits). -/
def natOfDigits (ds : List Char) : Nat :=
  ds.foldl (fun a c => a * 10 + (pyDigitVal c).getD 0) 0

/-- One regex group `((\d+?)u)?`: take the maximal digit run; if it is
non-empty and followed by the unit letter `u`, capture it, otherwise the
group matches empty and consumes nothing. -/
def parseSeg (u : Char) (s : List Char) : Option Nat × List Char :=
  let ds := s.takeWhile isDigitPy
  let rest := s.dropWhile isDigitPy
  if ds ≠ [] ∧ rest.head? = some u then (some (natOfDigits ds), rest.tail)
  else (none, s)

/-- Python's `str.strip()`: drop Unicode whitespace from both ends. -/
def stripChars (s : List Char) : List Char :=
  (((s.dropWhile isSpacePy).reverse).dropWhile isSpacePy).reverse

/-- Full match of `^((\d+?)d)?\s*((\d+?)h)?\s*((\d+?)m)?\s*((\d+?)s)?$`,
returning the four captured groups. -/
def matchGroups (s : List Char) :
    Option (Option Nat × Option Nat × Option Nat × Option Nat) :=
  let r1 := parseSeg 'd' s
  let r2 := parseSeg 'h' (r1.2.dropWhile isSpacePy)
  let r3 := parseSeg 'm' (r2.2.dropWhile isSpacePy)
  let r4 := parseSeg 's' (r3.2.dropWhile isSpacePy)
  if r4.2 = [] then some (r1.1, r2.1, r3.1, r4.1) else none

/-- The exceptions `parse_duration` can raise: `ValueError` for a failed
or all-empty match, and `OverflowError` from the `timedelta`
constructor. -/
inductive DurationError
  | invalidFormat
  | overflow
deriving DecidableEq

deriving instance DecidableEq for Except

/-- `timedelta` accepts at most 999,999,999 days 23:59:59; this is that
bound in seconds.  Beyond it the constructor raises `OverflowError`. -/
def timedeltaMaxSec : Nat := 999999999 * 86400 + 23 * 3600 + 59 * 60 + 59

/-- The ulp exponent of an IEEE double at magnitude `n`: the least `e`
with `n < 2 ^ (53 + e)`, so doubles near `n` are the multiples of
`2 ^ e`. -/
def floatUlpExp (n : Nat) : Nat :=
  ((List.range 64).find? (fun e => n < 2 ^ (53 + e))).getD 64

/-- Round a natural number to the nearest IEEE double (53-bit significand,
ties to even): the rounding the multiplication `total_seconds() * 1000`
performs.  Exact below `2 ^ 53`. -/
def roundFloat (n : Nat) : Nat :=
  let e := floatUlpExp n
  if e = 0 then n
  else
    let p := 2 ^ e
    let q := n / p
    let r := n % p
    if p / 2 < r ∨ (r = p / 2 ∧ q % 2 = 1) then (q + 1) * p else q * p

/-- `parse_duration` (bot.py, lines 15-35): strip, match the regex, reject
a match in which no group is present (`ValueError`), construct the
`timedelta` — raising `OverflowError` when the total exceeds
`timedeltaMaxSec` — and return `int(td.total_seconds() * 1000)`.  Within
the bound the total seconds fit a double exactly, so the one rounding step
is the final multiplication by 1000, embedded by `roundFloat`. -/
def parse_duration (str : String) : Except DurationError Nat :=
  match matchGroups (stripChars str.data) with
  | none => Except.error DurationError.invalidFormat
  | some (d, h, m, sec) =>
    if d = none ∧ h = none ∧ m = none ∧ sec = none then
      Except.error DurationError.invalidFormat
    else
      let total := d.getD 0 * 86400 + h.getD 0 * 3600 + m.getD 0 * 60 + sec.getD 0
      if timedeltaMaxSec < total then Except.error DurationError.overflow
      else Except.ok (roundFloat (total * 1000))

/-- The two tables of `upgrade_v1` (db.py): `room_expiry_times` maps
`room_id` to `expiry_msec`, `events` maps `event_id` to its `room_id`. -/
structure Store where
  room_expiry_times : List (String × Nat)
  events : List (String × String)
deriving DecidableEq

/-- `SELECT expiry_msec FROM room_expiry_times WHERE room_id = $1`. -/
def lookupRoom (ps : List (String × Nat)) (rid : String) : Option Nat :=
  (ps.find? (fun p => p.1 == rid)).map (fun p => p.2)

/-- `INSERT INTO room_expiry_times(room_id, expiry_msec) VALUES ($1, $2)
ON CONFLICT(room_id) DO UPDATE SET expiry_msec=$2`: replace the (unique)
row with this key, or append a fresh row. -/
def upsertPolicy : List (String × Nat) → String → Nat → List (String × Nat)
  | [], rid, v => [(rid, v)]
  | p :: ps, rid, v => if p.1 == rid then (p.1, v) :: ps else p :: upsertPolicy ps rid v

/-- `DELETE FROM room_expiry_times WHERE room_id = $1` under the schema's
`ON DELETE CASCADE`: the policy row and every `events` row referencing the
room disappear in the one store-level operation. -/
def deletePolicy (st : Store) (rid : String) : Store :=
  { room_expiry_times := st.room_expiry_times.filter (fun p => !(p.1 == rid)),
    events := st.events.filter (fun e => !(e.2 == rid)) }

/-- `INSERT INTO events(event_id, room_id) VALUES ($1, $2)`: a plain insert
against `events(event_id TEXT PRIMARY KEY, room_id REFERENCES
room_expiry_times)`, which errors on a duplicate key or a missing parent
row rather than ignoring it. -/
def insertEvent (st : Store) (eid rid : String) : Except String Store :=
  if st.events.any (fun e => e.1 == eid) then
    Except.error "UNIQUE constraint failed: events.event_id"
  else if (lookupRoom st.room_expiry_times rid).isNone then
    Except.error "FOREIGN KEY constraint failed"
  else
    Except.ok { st with events := st.events ++ [(eid, rid)] }

/-- `track_expiring_message` (bot.py, lines 310-328): for a trackable
message type, scan the policy rows for the room and insert a tracked entry;
every database error is caught and only logged. -/
def track_expiring_message (st : Store) (rid eid : String) (msgtypeOk : Bool) : Store :=
  if msgtypeOk then
    if (lookupRoom st.room_expiry_times rid).isSome then
      match insertEvent st eid rid with
      | Except.ok st' => st'
      | Except.error _ => st
    else st
  else st

/-- The power-levels state event as the handlers use it: `get_user_level`
as a function of the user id, and the `redact` attribute, absent when the
event does not carry one (`getattr(levels, 'redact', 50)`). -/
structure PowerLevels where
  userLevel : String → Int
  redact : Option Int

/-- Permission-denial message naming the required level (bot.py, line 72). -/
def msgUserDenied (lvl : Int) : String :=
  s!"You need a power level of {lvl} or higher to set message expiration."

/-- Permission-denial message for the bot's own level (bot.py, line 76). -/
def msgBotDenied (lvl : Int) : String :=
  s!"I need a power level of {lvl} or higher to redact messages."

/-- Fail-closed message when the power-levels fetch raises (bot.py, line 81). -/
def msgPermCheckFailed : String :=
  "Failed to check permissions. Please try again later."

/-- `can_use_command` (bot.py, lines 44-81): fetch the room power levels
(`fetch` is the remote call's outcome), require the sender's and the bot's
levels to reach the redaction level (default 50 when the attribute is
unset); any exception yields a refusal. -/
def can_use_command : Except Unit PowerLevels → String → String → Bool × String
  | Except.error _, _, _ => (false, msgPermCheckFailed)
  | Except.ok levels, sender, botId =>
    if levels.userLevel sender < levels.redact.getD 50 then
      (false, msgUserDenied (levels.redact.getD 50))
    else if levels.userLevel botId < levels.redact.getD 50 then
      (false, msgBotDenied (levels.redact.getD 50))
    else (true, "")

/-- `cmd_expire_set` (bot.py, lines 191-218): gate on `can_use_command`,
parse the duration, then upsert the room policy.  Returns the store and
the response text; only `ValueError` is caught (bot.py line 203), so an
`OverflowError` escapes the handler and no response is sent (`none`). -/
def cmd_expire_set (fetch : Except Unit PowerLevels) (sender botId : String)
    (st : Store) (rid arg : String) : Store × Option String :=
  let gate := can_use_command fetch sender botId
  if gate.1 then
    match parse_duration arg with
    | Except.error DurationError.invalidFormat =>
      (st, some s!"Error parsing duration: Invalid duration format: {arg}")
    | Except.error DurationError.overflow => (st, none)
    | Except.ok ms =>
      ({ st with room_expiry_times := upsertPolicy st.room_expiry_times rid ms },
       some s!"Message expiration for this room set to {arg}")
  else (st, some gate.2)

/-- `cmd_expire_unset` (bot.py, lines 220-238): gate on `can_use_command`,
then delete the room policy (cascading to tracked events). -/
def cmd_expire_unset (fetch : Except Unit PowerLevels) (sender botId : String)
    (st : Store) (rid : String) : Store × String :=
  let gate := can_use_command fetch sender botId
  if gate.1 then
    (deletePolicy st rid,
     "Message expiration for this room has been disabled. All tracked messages will be preserved.")
  else (st, gate.2)

/-- Default 7-day expiry assigned on join (bot.py, line 397). -/
def default_expiry_ms : Nat := 7 * 24 * 60 * 60 * 1000

/-- Bot-join branch of `handle_membership_change` (bot.py, lines 384-450):
if the room has no policy yet, upsert the default one. -/
def handle_join (st : Store) (rid : String) : Store :=
  if (lookupRoom st.room_expiry_times rid).isSome then st
  else { st with room_expiry_times := upsertPolicy st.room_expiry_times rid default_expiry_ms }

/-- Bot-leave branch of `handle_membership_change` (bot.py, lines 360-381):
if the room has a policy, delete it (cascading to tracked events). -/
def handle_leave (st : Store) (rid : String) : Store :=
  if (lookupRoom st.room_expiry_times rid).isSome then deletePolicy st rid else st

/-- Outcome of one remote `client.redact` call, distinguished exactly as the
except-branch of `_redact_with_backoff` does: success, an exception whose
text contains "Too Many Requests", or any other exception. -/
inductive RedactResult
  | ok
  | rateLimited
  | otherError
deriving DecidableEq

/-- The mutable actuator state: the event-loop clock and
`_last_redaction_time`, both in milliseconds.  The loop clock is monotone,
so `last ≤ clock` in every reachable state. -/
structure ActState where
  clock : Nat
  last : Nat
deriving DecidableEq

/-- Result of one `_redact_with_backoff` run: the returned boolean, the
final state, the start times of the remote redact calls that were made, and
the backoff delays slept (ms). -/
structure RunOut where
  success : Bool
  st : ActState
  calls : List Nat
  backoffs : List Nat
deriving DecidableEq

/-- The retry loop of `_redact_with_backoff` (bot.py, lines 91-113), fuel =
remaining attempts, `idx` = current attempt index.  Per attempt: enforce the
100 ms minimum spacing from `_last_redaction_time`, issue the remote call
(`resp idx` its outcome, `dur idx` its duration), on success record the
completion time as the new last-redaction time and return `true`; on a
rate-limit exception sleep `min(1000 * 2 ^ idx, 32000)` ms and retry; on any
other exception return `false` immediately. -/
def redactGo (resp : Nat → RedactResult) (dur : Nat → Nat) :
    Nat → Nat → ActState → RunOut
  | 0, _, st => ⟨false, st, [], []⟩
  | n + 1, idx, st =>
    let wait := if st.clock - st.last < 100 then 100 - (st.clock - st.last) else 0
    let start := st.clock + wait
    let finish := start + dur idx
    match resp idx with
    | RedactResult.ok => ⟨true, ⟨finish, finish⟩, [start], []⟩
    | RedactResult.otherError => ⟨false, ⟨finish, st.last⟩, [start], []⟩
    | RedactResult.rateLimited =>
      let d := min (1000 * 2 ^ idx) 32000
      let r := redactGo resp dur n (idx + 1) ⟨finish + d, st.last⟩
      ⟨r.success, r.st, start :: r.calls, d :: r.backoffs⟩

/-- `_redact_with_backoff` with its default `max_retries = 5`. -/
def redact_with_backoff (resp : Nat → RedactResult) (dur : Nat → Nat)
    (st : ActState) : RunOut :=
  redactGo resp dur 5 0 st

/-- The join of `_process_expirations` (bot.py, lines 119-124):
`SELECT e.event_id, e.room_id, r.expiry_msec FROM events e INNER JOIN
room_expiry_times r ON r.room_id = e.room_id`. -/
def joinRows (st : Store) : List (String × String × Nat) :=
  st.events.filterMap (fun e =>
    (lookupRoom st.room_expiry_times e.2).map (fun ttl => (e.1, e.2, ttl)))

/-- One row of a sweep pass (bot.py, lines 131-149).  `row` is
`(event_id, room_id, expiry_msec)`; `getTs` is the remote
`client.get_event(...).timestamp` fetch (`none` when it raises, which skips
the row); `act` is the actuator verdict.  The accumulator carries the store
and the list of `(room_id, event_id)` actuator invocations. -/
def sweepStep (now : Nat) (getTs : String → String → Option Nat)
    (act : String → String → Bool)
    (acc : Store × List (String × String)) (row : String × String × Nat) :
    Store × List (String × String) :=
  match getTs row.2.1 row.1 with
  | none => acc
  | some ts =>
    if ts < now - row.2.2 then
      if act row.2.1 row.1 then
        ({ acc.1 with events := acc.1.events.filter (fun e => !(e.1 == row.1)) },
         acc.2 ++ [(row.2.1, row.1)])
      else (acc.1, acc.2 ++ [(row.2.1, row.1)])
    else acc

/-- One full pass of `_process_expirations`: fold the per-row step over the
join rows fetched at the start of the pass. -/
def sweepPass (now : Nat) (getTs : String → String → Option Nat)
    (act : String → String → Bool) (st : Store) :
    Store × List (String × String) :=
  (joinRows st).foldl (sweepStep now getTs act) (st, [])

/-- One duration segment rendered as characters: absent, or the digit run
followed by its unit letter. -/
def segStr : Option (List Char) → Char → List Char
  | none, _ => []
  | some ds, u => ds ++ [u]

/-- A list of segments rendered in order. -/
def renderTail : List (Char × Option (List Char)) → List Char
  | [] => []
  | (u, o) :: rest => segStr o u ++ renderTail rest

/-- A well-formed optional segment: if present, a non-empty decimal digit
run. -/
def segOk : Option (List Char) → Bool
  | none => true
  | some ds => !ds.isEmpty && ds.all Char.isDigit

/-- A run of whitespace. -/
def wsOk (w : List Char) : Bool := w.all isSpace

/-- The spec's duration grammar, transcribed from the specification: the
input is optional `<N>d`, `<N>h`, `<N>m`, `<N>s` segments in that fixed
order, digits only, with optional whitespace around and between segments,
and at least one segment present. -/
def DurationGrammar (s : String) : Prop :=
  ∃ w0 od w1 oh w2 om w3 os w4,
    wsOk w0 = true ∧ segOk od = true ∧ wsOk w1 = true ∧
    segOk oh = true ∧ wsOk w2 = true ∧ segOk om = true ∧
    wsOk w3 = true ∧ segOk os = true ∧ wsOk w4 = true ∧
    ¬(od = none ∧ oh = none ∧ om = none ∧ os = none) ∧
    s.data = w0 ++ segStr od 'd' ++ w1 ++ segStr oh 'h' ++ w2 ++
      segStr om 'm' ++ w3 ++ segStr os 's' ++ w4

/-- A well-formed optional segment over Python's digit class. -/
def segOkPy : Option (List Char) → Bool
  | none => true
  | some ds => !ds.isEmpty && ds.all isDigitPy

/-- A run of Python whitespace. -/
def wsOkPy (w : List Char) : Bool := w.all isSpacePy

/-- The language the program's regex actually accepts: the grammar of
`DurationGrammar` with Python's Unicode character classes — segments of
Unicode decimal digits and gaps of Unicode whitespace. -/
def DurationGrammarPy (s : String) : Prop :=
  ∃ w0 od w1 oh w2 om w3 os w4,
    wsOkPy w0 = true ∧ segOkPy od = true ∧ wsOkPy w1 = true ∧
    segOkPy oh = true ∧ wsOkPy w2 = true ∧ segOkPy om = true ∧
    wsOkPy w3 = true ∧ segOkPy os = true ∧ wsOkPy w4 = true ∧
    ¬(od = none ∧ oh = none ∧ om = none ∧ os = none) ∧
    s.data = w0 ++ segStr od 'd' ++ w1 ++ segStr oh 'h' ++ w2 ++
      segStr om 'm' ++ w3 ++ segStr os 's' ++ w4

/-! ### Store lemmas -/

lemma lookupRoom_upsert_self (ps : List (String × Nat)) (rid : String) (v : Nat) :
    lookupRoom (upsertPolicy ps rid v) rid = some v := by
  induction ps with
  | nil => simp [upsertPolicy, lookupRoom]
  | cons p ps ih =>
    by_cases h : p.1 == rid
    · simp [upsertPolicy, h, lookupRoom, List.find?]
    · simp only [upsertPolicy, h, if_false, Bool.false_eq_true]
      simpa [lookupRoom, List.find?, h] using ih

lemma lookupRoom_filter_ne (ps : List (String × Nat)) (rid : String) :
    lookupRoom (ps.filter (fun p => !(p.1 == rid))) rid = none := by
  simp only [lookupRoom, Option.map_eq_none']
  rw [List.find?_eq_none]
  intro p hp
  have := (List.mem_filter.mp hp).2
  simp only [Bool.not_eq_true'] at this
  simp [this]

lemma deletePolicy_no_room_events (st : Store) (rid : String) :
    (deletePolicy st rid).events.filter (fun e => e.2 == rid) = [] := by
  rw [List.filter_eq_nil_iff]
  intro e he
  have := (List.mem_filter.mp he).2
  simp only [Bool.not_eq_true'] at this
  simp [this]

/-! ### C10: permission fetch failure fails closed -/

/-- C10: if fetching the room's power levels raises, `can_use_command`
returns a refusal with an explanatory message, and both the `set` and the
`unset` command leave the policy store unchanged and respond with that
message. -/
theorem perm_fetch_error_fails_closed (e : Unit) (sender botId : String)
    (st : Store) (rid arg : String) :
    can_use_command (Except.error e) sender botId = (false, msgPermCheckFailed) ∧
    cmd_expire_set (Except.error e) sender botId st rid arg = (st, some msgPermCheckFailed) ∧
    cmd_expire_unset (Except.error e) sender botId st rid = (st, msgPermCheckFailed) := by
  refine ⟨rfl, ?_, ?_⟩ <;> simp [cmd_expire_set, cmd_expire_unset, can_use_command]

/-! ### C3: duplicate tracked-entry insert -/

/-- C3 counterexample: the tracked-entry insert is a plain `INSERT`, so
inserting an `event_id` that is already present raises a unique-constraint
error at the store level instead of being an insert-or-ignore no-op. -/
theorem insert_duplicate_raises_cex :
    insertEvent ⟨[("room1", 1000)], [("ev1", "room1")]⟩ "ev1" "room1" =
      Except.error "UNIQUE constraint failed: events.event_id" := rfl

/-- C3 amended: a duplicate insert of the same `event_id` errors at the
store level, but the message handler catches the error, so a duplicate
observation propagates no exception and leaves the store unchanged. -/
theorem insert_duplicate_caught (st : Store) (eid rid : String) (mtOk : Bool)
    (hdup : eid ∈ st.events.map Prod.fst) :
    (insertEvent st eid rid).isOk = false ∧
    track_expiring_message st rid eid mtOk = st := by
  have hc : st.events.any (fun e => e.1 == eid) = true := by
    rcases List.mem_map.mp hdup with ⟨p, hp, hpe⟩
    exact List.any_eq_true.mpr ⟨p, hp, by simp [hpe]⟩
  constructor
  · simp [insertEvent, hc, Except.isOk, Except.toBool]
  · unfold track_expiring_message
    cases mtOk
    · rfl
    · by_cases hr : (lookupRoom st.room_expiry_times rid).isSome
      · simp [hr, insertEvent, hc]
      · simp [hr]

/-- C3 witness. -/
theorem insert_duplicate_caught_witness :
    (insertEvent ⟨[("room1", 1000)], [("ev1", "room1")]⟩ "ev1" "room1").isOk = false ∧
    track_expiring_message ⟨[("room1", 1000)], [("ev1", "room1")]⟩ "room1" "ev1" true =
      ⟨[("room1", 1000)], [("ev1", "room1")]⟩ :=
  insert_duplicate_caught ⟨[("room1", 1000)], [("ev1", "room1")]⟩ "ev1" "room1" true (by decide)

/-! ### C9: the authorization gate -/

/-- C9 counterexample: a room where the acting user's level (100) meets the
required redaction level (default 50) but the gate still refuses, because
the bot's own level (0) is below the threshold — the bot's insufficient
rights are not merely a warning. -/
theorem gate_requires_bot_level_cex :
    (can_use_command
        (Except.ok ⟨fun u => if u = "alice" then 100 else 0, none⟩) "alice" "bot").1 = false ∧
    (PowerLevels.mk (fun u => if u = "alice" then 100 else 0) none).redact.getD 50 ≤
      (PowerLevels.mk (fun u => if u = "alice" then 100 else 0) none).userLevel "alice" := by
  constructor
  · rfl
  · simp

/-- C9 amended: the gate passes exactly when both the acting user's and the
bot's power levels reach the room's required redaction level (default 50
when the attribute is unset); when it fails on levels, the response names
the required level; whenever the gate fails, `set` and `unset` leave the
policy store unchanged. -/
theorem gate_iff_user_and_bot (levels : PowerLevels) (sender botId : String)
    (fetch : Except Unit PowerLevels) (st : Store) (rid arg : String) :
    ((can_use_command (Except.ok levels) sender botId).1 = true ↔
      levels.redact.getD 50 ≤ levels.userLevel sender ∧
      levels.redact.getD 50 ≤ levels.userLevel botId) ∧
    ((can_use_command (Except.ok levels) sender botId).1 = false →
      (can_use_command (Except.ok levels) sender botId).2 =
          msgUserDenied (levels.redact.getD 50) ∨
      (can_use_command (Except.ok levels) sender botId).2 =
          msgBotDenied (levels.redact.getD 50)) ∧
    ((can_use_command fetch sender botId).1 = false →
      (cmd_expire_set fetch sender botId st rid arg).1 = st ∧
      (cmd_expire_unset fetch sender botId st rid).1 = st) := by
  refine ⟨?_, ?_, ?_⟩
  · unfold can_use_command
    dsimp only
    split_ifs with h1 h2 <;> simp <;> omega
  · unfold can_use_command
    dsimp only
    split_ifs with h1 h2 <;> simp
  · intro hgate
    constructor <;> simp [cmd_expire_set, cmd_expire_unset, hgate]

/-- C9 witness: a concrete room (everyone at level 0, required level 50)
where the gate fails, the response names the required level, and the
commands leave the store unchanged. -/
theorem gate_iff_user_and_bot_witness :
    (((can_use_command (Except.ok ⟨fun _ => 0, none⟩) "alice" "bot").1 = true ↔
      (PowerLevels.mk (fun _ => 0) none).redact.getD 50 ≤
          (PowerLevels.mk (fun _ => 0) none).userLevel "alice" ∧
      (PowerLevels.mk (fun _ => 0) none).redact.getD 50 ≤
          (PowerLevels.mk (fun _ => 0) none).userLevel "bot") ∧
    ((can_use_command (Except.ok ⟨fun _ => 0, none⟩) "alice" "bot").2 =
        msgUserDenied ((PowerLevels.mk (fun _ => 0) none).redact.getD 50) ∨
      (can_use_command (Except.ok ⟨fun _ => 0, none⟩) "alice" "bot").2 =
        msgBotDenied ((PowerLevels.mk (fun _ => 0) none).redact.getD 50))) ∧
    (cmd_expire_set (Except.ok ⟨fun _ => 0, none⟩) "alice" "bot" ⟨[("r", 5)], []⟩ "r" "1h").1 =
      ⟨[("r", 5)], []⟩ ∧
    (cmd_expire_unset (Except.ok ⟨fun _ => 0, none⟩) "alice" "bot" ⟨[("r", 5)], []⟩ "r").1 =
      ⟨[("r", 5)], []⟩ := by
  have h := gate_iff_user_and_bot ⟨fun _ => 0, none⟩ "alice" "bot"
    (Except.ok ⟨fun _ => 0, none⟩) ⟨[("r", 5)], []⟩ "r" "1h"
  exact ⟨⟨h.1, h.2.1 rfl⟩, h.2.2 rfl⟩

/-! ### C8: cascading policy deletion -/

/-- C8: deleting a room's policy removes, in the same store-level
operation `deletePolicy`, every tracked entry referencing that room and the
policy row itself; the `unset` command (when its gate passes) and the
bot-leave handler (when the room has a policy) perform exactly that
operation. -/
theorem delete_policy_cascades (st : Store) (rid : String)
    (fetch : Except Unit PowerLevels) (sender botId : String) (t : Nat) :
    ((deletePolicy st rid).events.filter (fun e => e.2 == rid) = [] ∧
      lookupRoom (deletePolicy st rid).room_expiry_times rid = none) ∧
    ((can_use_command fetch sender botId).1 = true →
      (cmd_expire_unset fetch sender botId st rid).1 = deletePolicy st rid) ∧
    (lookupRoom st.room_expiry_times rid = some t →
      handle_leave st rid = deletePolicy st rid) := by
  refine ⟨⟨deletePolicy_no_room_events st rid, lookupRoom_filter_ne _ rid⟩, ?_, ?_⟩
  · intro hgate
    simp [cmd_expire_unset, hgate]
  · intro hpol
    simp [handle_leave, hpol]

/-- C8 witness: a store with two tracked entries in room `r` and one in
room `q`; after the `unset` command and after the bot-leave event, room `r`
has no tracked entry and no policy. -/
theorem delete_policy_cascades_witness :
    ((deletePolicy ⟨[("r", 5), ("q", 7)], [("e1", "r"), ("e2", "q"), ("e3", "r")]⟩ "r").events.filter
        (fun e => e.2 == "r") = [] ∧
      lookupRoom (deletePolicy ⟨[("r", 5), ("q", 7)], [("e1", "r"), ("e2", "q"), ("e3", "r")]⟩
        "r").room_expiry_times "r" = none) ∧
    (cmd_expire_unset (Except.ok ⟨fun _ => 100, none⟩) "alice" "bot"
      ⟨[("r", 5), ("q", 7)], [("e1", "r"), ("e2", "q"), ("e3", "r")]⟩ "r").1 =
      deletePolicy ⟨[("r", 5), ("q", 7)], [("e1", "r"), ("e2", "q"), ("e3", "r")]⟩ "r" ∧
    handle_leave ⟨[("r", 5), ("q", 7)], [("e1", "r"), ("e2", "q"), ("e3", "r")]⟩ "r" =
      deletePolicy ⟨[("r", 5), ("q", 7)], [("e1", "r"), ("e2", "q"), ("e3", "r")]⟩ "r" := by
  have h := delete_policy_cascades ⟨[("r", 5), ("q", 7)], [("e1", "r"), ("e2", "q"), ("e3", "r")]⟩
    "r" (Except.ok ⟨fun _ => 100, none⟩) "alice" "bot" 5
  exact ⟨h.1, h.2.1 (by decide), h.2.2 (by decide)⟩

/-! ### C7: positivity of ttl_ms -/

/-- C7 counterexample: the parser accepts the all-zero duration "0s" with
value 0, and the `set` command then creates a RoomPolicy with
`ttl_ms = 0`, which is not strictly positive. -/
theorem ttl_zero_cex :
    parse_duration "0s" = Except.ok 0 ∧
    lookupRoom (cmd_expire_set (Except.ok ⟨fun _ => 100, none⟩) "u" "b"
      ⟨[], []⟩ "r" "0s").1.room_expiry_times "r" = some 0 := by decide

/-- C7 amended: a policy created by the `set` command has `ttl_ms` equal to
the parsed duration value — which can be zero, e.g. for "0s" — while the
default policy assigned on join always has the strictly positive value
604,800,000 ms. -/
theorem ttl_provenance (fetch : Except Unit PowerLevels) (sender botId : String)
    (st : Store) (rid arg : String) (v : Nat) :
    (parse_duration arg = Except.ok v → (can_use_command fetch sender botId).1 = true →
      lookupRoom (cmd_expire_set fetch sender botId st rid arg).1.room_expiry_times rid =
        some v) ∧
    (lookupRoom st.room_expiry_times rid = none →
      lookupRoom (handle_join st rid).room_expiry_times rid = some default_expiry_ms) ∧
    0 < default_expiry_ms := by
  refine ⟨?_, ?_, by decide⟩
  · intro hp hgate
    simp [cmd_expire_set, hgate, hp, lookupRoom_upsert_self]
  · intro hnone
    simp [handle_join, hnone, lookupRoom_upsert_self]

/-- C7 witness: setting "0s" stores ttl 0; a join on a fresh room stores
the default 7-day ttl. -/
theorem ttl_provenance_witness :
    lookupRoom (cmd_expire_set (Except.ok ⟨fun _ => 100, none⟩) "u" "b"
      ⟨[], []⟩ "r" "0s").1.room_expiry_times "r" = some 0 ∧
    lookupRoom (handle_join ⟨[], []⟩ "r").room_expiry_times "r" = some default_expiry_ms ∧
    0 < default_expiry_ms := by
  have h := ttl_provenance (Except.ok ⟨fun _ => 100, none⟩) "u" "b" ⟨[], []⟩ "r" "0s" 0
  exact ⟨h.1 (by decide) (by decide), h.2.1 (by decide), h.2.2⟩

/-! ### C2: backoff schedule -/

/-- C2: five consecutive rate-limit rejections make the actuator sleep
1s, 2s, 4s, 8s, 16s (each at most the 32s cap), make exactly five remote
calls (none after the fifth attempt), and report failure; a non-rate-limit
remote error reports failure immediately after a single remote call, with
no backoff sleep. -/
theorem backoff_schedule (resp : Nat → RedactResult) (dur : Nat → Nat) (st : ActState) :
    ((∀ i, i < 5 → resp i = RedactResult.rateLimited) →
      (redact_with_backoff resp dur st).success = false ∧
      (redact_with_backoff resp dur st).backoffs = [1000, 2000, 4000, 8000, 16000] ∧
      (redact_with_backoff resp dur st).calls.length = 5 ∧
      (redact_with_backoff resp dur st).backoffs.all (fun b => b ≤ 32000) = true) ∧
    (resp 0 = RedactResult.otherError →
      (redact_with_backoff resp dur st).success = false ∧
      (redact_with_backoff resp dur st).calls.length = 1 ∧
      (redact_with_backoff resp dur st).backoffs = []) := by
  constructor
  · intro h
    have h0 := h 0 (by omega)
    have h1 := h 1 (by omega)
    have h2 := h 2 (by omega)
    have h3 := h 3 (by omega)
    have h4 := h 4 (by omega)
    refine ⟨?_, ?_, ?_, ?_⟩ <;>
      simp [redact_with_backoff, redactGo, h0, h1, h2, h3, h4]
  · intro h0
    refine ⟨?_, ?_, ?_⟩ <;> simp [redact_with_backoff, redactGo, h0]

/-- C2 witness: the schedule on an always-rate-limited oracle and the
immediate failure on an other-error oracle, from clock 0. -/
theorem backoff_schedule_witness :
    ((redact_with_backoff (fun _ => RedactResult.rateLimited) (fun _ => 0) ⟨0, 0⟩).success = false ∧
      (redact_with_backoff (fun _ => RedactResult.rateLimited) (fun _ => 0) ⟨0, 0⟩).backoffs =
        [1000, 2000, 4000, 8000, 16000] ∧
      (redact_with_backoff (fun _ => RedactResult.rateLimited) (fun _ => 0) ⟨0, 0⟩).calls.length = 5 ∧
      (redact_with_backoff (fun _ => RedactResult.rateLimited) (fun _ => 0) ⟨0, 0⟩).backoffs.all
        (fun b => b ≤ 32000) = true) ∧
    ((redact_with_backoff (fun _ => RedactResult.otherError) (fun _ => 0) ⟨0, 0⟩).success = false ∧
      (redact_with_backoff (fun _ => RedactResult.otherError) (fun _ => 0) ⟨0, 0⟩).calls.length = 1 ∧
      (redact_with_backoff (fun _ => RedactResult.otherError) (fun _ => 0) ⟨0, 0⟩).backoffs = []) :=
  ⟨(backoff_schedule (fun _ => RedactResult.rateLimited) (fun _ => 0) ⟨0, 0⟩).1
      (fun _ _ => rfl),
   (backoff_schedule (fun _ => RedactResult.otherError) (fun _ => 0) ⟨0, 0⟩).2 rfl⟩

/-! ### C4: minimum spacing between remote calls -/

/-- C4 counterexample: `_last_redaction_time` is updated only on success,
so after an evict whose remote call fails, an immediately following evict
issues its remote call with no spacing at all: both remote calls start at
clock 1000. -/
theorem spacing_cex :
    (redact_with_backoff (fun _ => RedactResult.otherError) (fun _ => 0) ⟨1000, 0⟩).calls =
      [1000] ∧
    (redact_with_backoff (fun _ => RedactResult.ok) (fun _ => 0)
      (redact_with_backoff (fun _ => RedactResult.otherError) (fun _ => 0) ⟨1000, 0⟩).st).calls =
      [1000] := by decide

/-- C4 amended: when the first of two back-to-back evict calls succeeds,
its completion time is recorded, and the second evict's first remote call
starts at least 100 ms after the first evict's remote call (indeed at least
100 ms after its completion); after a failed evict no minimum spacing is
enforced, because the last-call timestamp is only updated on success. -/
theorem spacing_after_success (resp1 resp2 : Nat → RedactResult) (dur1 dur2 : Nat → Nat)
    (st : ActState) (h1 : resp1 0 = RedactResult.ok) :
    ∀ t1 t2, (redact_with_backoff resp1 dur1 st).calls.head? = some t1 →
      (redact_with_backoff resp2 dur2 (redact_with_backoff resp1 dur1 st).st).calls.head? =
        some t2 →
      t1 + 100 ≤ t2 := by
  intro t1 t2 ht1 ht2
  simp only [redact_with_backoff, redactGo, h1, List.head?_cons, Option.some_inj] at ht1 ht2
  rcases h2 : resp2 0 with _ | _ | _ <;>
    simp [h2, Nat.sub_self] at ht2 <;> omega

/-- C4 witness: a successful evict from clock 0 (call at 100, 5 ms long,
completing at 105) followed immediately by a second evict, whose remote
call starts at 205 — at least 100 ms after the first. -/
theorem spacing_after_success_witness :
    (redact_with_backoff (fun _ => RedactResult.ok) (fun _ => 5) ⟨0, 0⟩).calls.head? =
      some 100 ∧
    (redact_with_backoff (fun _ => RedactResult.ok) (fun _ => 0)
      (redact_with_backoff (fun _ => RedactResult.ok) (fun _ => 5) ⟨0, 0⟩).st).calls.head? =
      some 205 ∧
    100 + 100 ≤ 205 :=
  ⟨by decide, by decide,
   spacing_after_success (fun _ => RedactResult.ok) (fun _ => RedactResult.ok)
     (fun _ => 5) (fun _ => 0) ⟨0, 0⟩ rfl 100 205 (by decide) (by decide)⟩

/-! ### C1: one sweep pass on an expired entry -/

lemma sweepStep_untouched (now : Nat) (getTs : String → String → Option Nat)
    (act : String → String → Bool) (eid rid : String)
    (acc : Store × List (String × String)) (row : String × String × Nat)
    (hne : row.1 ≠ eid) :
    (∀ x, (eid, x) ∈ (sweepStep now getTs act acc row).1.events ↔ (eid, x) ∈ acc.1.events) ∧
    (sweepStep now getTs act acc row).2.count (rid, eid) = acc.2.count (rid, eid) := by
  unfold sweepStep
  cases hts : getTs row.2.1 row.1 with
  | none => simp
  | some ts =>
    by_cases hcut : ts < now - row.2.2
    · have hmemiff : ∀ x, (eid, x) ∈ acc.1.events.filter (fun e => !(e.1 == row.1)) ↔
          (eid, x) ∈ acc.1.events := by
        intro x
        rw [List.mem_filter]
        simp [Ne.symm hne]
      have hcount : (acc.2 ++ [(row.2.1, row.1)]).count (rid, eid) =
          acc.2.count (rid, eid) := by
        rw [List.count_append]
        simp [List.count_cons, beq_iff_eq, Prod.ext_iff, hne]
      by_cases hact : act row.2.1 row.1
      · simp only [hcut, if_true, hact]
        exact ⟨hmemiff, hcount⟩
      · simp only [hcut, if_true, hact, Bool.false_eq_true, if_false]
        exact ⟨fun x => trivial, hcount⟩
    · simp [hcut]

lemma sweep_fold_untouched (now : Nat) (getTs : String → String → Option Nat)
    (act : String → String → Bool) (eid rid : String) :
    ∀ (rows : List (String × String × Nat)) (acc : Store × List (String × String)),
    (∀ r ∈ rows, r.1 ≠ eid) →
    (∀ x, (eid, x) ∈ (rows.foldl (sweepStep now getTs act) acc).1.events ↔
      (eid, x) ∈ acc.1.events) ∧
    (rows.foldl (sweepStep now getTs act) acc).2.count (rid, eid) =
      acc.2.count (rid, eid) := by
  intro rows
  induction rows with
  | nil => intro acc _; simp
  | cons r rows ih =>
    intro acc h
    have hr := h r (List.mem_cons_self r rows)
    have hrest : ∀ r' ∈ rows, r'.1 ≠ eid := fun r' hm => h r' (List.mem_cons_of_mem r hm)
    have hstep := sweepStep_untouched now getTs act eid rid acc r hr
    have hfold := ih (sweepStep now getTs act acc r) hrest
    rw [List.foldl_cons]
    exact ⟨fun x => (hfold.1 x).trans (hstep.1 x), hfold.2.trans hstep.2⟩

/-- C1: in a store with unique event ids, a tracked entry whose remote
observed timestamp is strictly older than `now - ttl` for its room gets
exactly one actuator invocation during the pass, and the entry is removed
from the store if and only if the actuator reports success: on failure it
is still present after the pass. -/
theorem sweep_expired_entry (st : Store) (now ts ttl : Nat) (eid rid : String)
    (getTs : String → String → Option Nat) (act : String → String → Bool)
    (hnd : (st.events.map Prod.fst).Nodup)
    (hmem : (eid, rid) ∈ st.events)
    (hpol : lookupRoom st.room_expiry_times rid = some ttl)
    (hts : getTs rid eid = some ts)
    (hold : ts + ttl < now) :
    (sweepPass now getTs act st).2.count (rid, eid) = 1 ∧
    (act rid eid = true →
      (sweepPass now getTs act st).1.events.filter (fun e => e.1 == eid) = []) ∧
    (act rid eid = false → (eid, rid) ∈ (sweepPass now getTs act st).1.events) := by
  obtain ⟨l1, l2, hsplit⟩ := List.append_of_mem hmem
  have hnd' : ((l1.map Prod.fst) ++ eid :: (l2.map Prod.fst)).Nodup := by
    rw [hsplit] at hnd
    simpa using hnd
  obtain ⟨n1, n2, disj⟩ := List.nodup_append.mp hnd'
  have heid2 : eid ∉ l2.map Prod.fst := (List.nodup_cons.mp n2).1
  have h1 : ∀ e ∈ l1, e.1 ≠ eid := by
    intro e he heq
    exact disj (List.mem_map_of_mem _ he) (by rw [heq]; exact List.mem_cons_self _ _)
  have h2 : ∀ e ∈ l2, e.1 ≠ eid := by
    intro e he heq
    exact heid2 (by rw [← heq]; exact List.mem_map_of_mem _ he)
  have hjoin : joinRows st =
      (l1.filterMap fun e => (lookupRoom st.room_expiry_times e.2).map fun t => (e.1, e.2, t)) ++
        (eid, rid, ttl) ::
        (l2.filterMap fun e =>
          (lookupRoom st.room_expiry_times e.2).map fun t => (e.1, e.2, t)) := by
    simp only [joinRows, hsplit, List.filterMap_append, List.filterMap_cons]
    simp [hpol]
  have hj1 : ∀ r ∈ (l1.filterMap fun e =>
      (lookupRoom st.room_expiry_times e.2).map fun t => (e.1, e.2, t)), r.1 ≠ eid := by
    intro r hr
    obtain ⟨e, he, hfe⟩ := List.mem_filterMap.mp hr
    obtain ⟨t, _, hfr⟩ := Option.map_eq_some'.mp hfe
    rw [← hfr]
    exact h1 e he
  have hj2 : ∀ r ∈ (l2.filterMap fun e =>
      (lookupRoom st.room_expiry_times e.2).map fun t => (e.1, e.2, t)), r.1 ≠ eid := by
    intro r hr
    obtain ⟨e, he, hfe⟩ := List.mem_filterMap.mp hr
    obtain ⟨t, _, hfr⟩ := Option.map_eq_some'.mp hfe
    rw [← hfr]
    exact h2 e he
  have hmid : ∀ acc : Store × List (String × String),
      sweepStep now getTs act acc (eid, rid, ttl) =
        if act rid eid then
          ({ acc.1 with events := acc.1.events.filter (fun e => !(e.1 == eid)) },
           acc.2 ++ [(rid, eid)])
        else (acc.1, acc.2 ++ [(rid, eid)]) := by
    intro acc
    have hc : ts < now - ttl := by omega
    by_cases hact : act rid eid <;> simp [sweepStep, hts, hc, hact]
  have hA := sweep_fold_untouched now getTs act eid rid
    (l1.filterMap fun e => (lookupRoom st.room_expiry_times e.2).map fun t => (e.1, e.2, t))
    (st, ([] : List (String × String))) hj1
  unfold sweepPass
  rw [hjoin, List.foldl_append, List.foldl_cons, hmid]
  by_cases hact : act rid eid
  · rw [if_pos hact]
    have hB := sweep_fold_untouched now getTs act eid rid
      (l2.filterMap fun e => (lookupRoom st.room_expiry_times e.2).map fun t => (e.1, e.2, t))
      ({ ((l1.filterMap fun e =>
            (lookupRoom st.room_expiry_times e.2).map fun t => (e.1, e.2, t)).foldl
            (sweepStep now getTs act) (st, [])).1 with
          events := ((l1.filterMap fun e =>
            (lookupRoom st.room_expiry_times e.2).map fun t => (e.1, e.2, t)).foldl
            (sweepStep now getTs act) (st, [])).1.events.filter (fun e => !(e.1 == eid)) },
       ((l1.filterMap fun e =>
          (lookupRoom st.room_expiry_times e.2).map fun t => (e.1, e.2, t)).foldl
          (sweepStep now getTs act) (st, [])).2 ++ [(rid, eid)]) hj2
    refine ⟨?_, fun _ => ?_, fun hf => absurd hact (by simp [hf])⟩
    · rw [hB.2]
      simp only [List.count_append]
      rw [hA.2]
      simp
    · rw [List.filter_eq_nil_iff]
      intro a ha hpa
      have ha1 : a.1 = eid := by simpa using hpa
      have haeta : a = (eid, a.2) := by rw [← ha1]
      rw [haeta] at ha
      have := (hB.1 a.2).mp ha
      rw [List.mem_filter] at this
      simp at this
  · rw [if_neg hact]
    have hB := sweep_fold_untouched now getTs act eid rid
      (l2.filterMap fun e => (lookupRoom st.room_expiry_times e.2).map fun t => (e.1, e.2, t))
      (((l1.filterMap fun e =>
          (lookupRoom st.room_expiry_times e.2).map fun t => (e.1, e.2, t)).foldl
          (sweepStep now getTs act) (st, [])).1,
       ((l1.filterMap fun e =>
          (lookupRoom st.room_expiry_times e.2).map fun t => (e.1, e.2, t)).foldl
          (sweepStep now getTs act) (st, [])).2 ++ [(rid, eid)]) hj2
    refine ⟨?_, fun ht => absurd ht (by simp [hact]), fun _ => ?_⟩
    · rw [hB.2]
      simp only [List.count_append]
      rw [hA.2]
      simp
    · exact (hB.1 rid).mpr ((hA.1 rid).mpr hmem)

/-- C1 witness: room `r` with ttl 3,600,000 ms, entry `e` observed at
timestamp 0, sweep at now = 10,000,000: with a succeeding actuator the
entry is invoked once and deleted; with a failing actuator it is invoked
once and still present. -/
theorem sweep_expired_entry_witness :
    ((sweepPass 10000000 (fun _ _ => some 0) (fun _ _ => true)
        ⟨[("r", 3600000)], [("e", "r")]⟩).2.count ("r", "e") = 1 ∧
      (sweepPass 10000000 (fun _ _ => some 0) (fun _ _ => true)
        ⟨[("r", 3600000)], [("e", "r")]⟩).1.events.filter (fun e => e.1 == "e") = []) ∧
    ((sweepPass 10000000 (fun _ _ => some 0) (fun _ _ => false)
        ⟨[("r", 3600000)], [("e", "r")]⟩).2.count ("r", "e") = 1 ∧
      ("e", "r") ∈ (sweepPass 10000000 (fun _ _ => some 0) (fun _ _ => false)
        ⟨[("r", 3600000)], [("e", "r")]⟩).1.events) := by
  have hT := sweep_expired_entry ⟨[("r", 3600000)], [("e", "r")]⟩ 10000000 0 3600000 "e" "r"
    (fun _ _ => some 0) (fun _ _ => true) (by decide) (by decide) (by decide) rfl (by decide)
  have hF := sweep_expired_entry ⟨[("r", 3600000)], [("e", "r")]⟩ 10000000 0 3600000 "e" "r"
    (fun _ _ => some 0) (fun _ _ => false) (by decide) (by decide) (by decide) rfl (by decide)
  exact ⟨⟨hT.1, hT.2.1 rfl⟩, ⟨hF.1, hF.2.2 rfl⟩⟩

/-! ### Parser lemmas for the duration grammar -/

lemma nd_ws_disjoint : ∀ z ∈ ndZeros, ∀ w ∈ wsCodes, ¬(z ≤ w ∧ w < z + 10) := by
  decide

lemma isDigitPy_run {c : Char} (h : isDigitPy c = true) :
    ∃ z ∈ ndZeros, z ≤ c.toNat ∧ c.toNat < z + 10 := by
  rw [isDigitPy, pyDigitVal, Option.isSome_map'] at h
  rw [Option.isSome_iff_exists] at h
  obtain ⟨z, hz⟩ := h
  have hcond := List.find?_some hz
  simp only [Bool.and_eq_true, decide_eq_true_eq] at hcond
  exact ⟨z, List.mem_of_find?_eq_some hz, hcond.1, hcond.2⟩

lemma pyDigit_not_space {c : Char} (h : isDigitPy c = true) : isSpacePy c = false := by
  obtain ⟨z, hzmem, hz1, hz2⟩ := isDigitPy_run h
  by_contra hs
  rw [Bool.not_eq_false, isSpacePy] at hs
  exact nd_ws_disjoint z hzmem c.toNat (List.mem_of_elem_eq_true hs) ⟨hz1, hz2⟩

lemma isDigitPy_of_ascii {c : Char} (h : c.isDigit = true) : isDigitPy c = true := by
  rw [Char.isDigit, Bool.and_eq_true, decide_eq_true_eq, decide_eq_true_eq] at h
  have h1 : 48 ≤ c.toNat := h.1
  have h2 : c.toNat ≤ 57 := h.2
  rw [isDigitPy, pyDigitVal, Option.isSome_map']
  rw [show ndZeros = 48 :: ndZeros.tail from rfl]
  rw [List.find?_cons_of_pos]
  · rfl
  · simp only [Bool.and_eq_true, decide_eq_true_eq]
    exact ⟨h1, by omega⟩

lemma takeWhile_digits_append {ds : List Char} {u : Char} {rest : List Char}
    (hds : ∀ c ∈ ds, isDigitPy c = true) (hu : isDigitPy u = false) :
    (ds ++ u :: rest).takeWhile isDigitPy = ds ∧
    (ds ++ u :: rest).dropWhile isDigitPy = u :: rest := by
  induction ds with
  | nil => simp [List.takeWhile_cons, List.dropWhile_cons, hu]
  | cons c cs ih =>
    have hc := hds c (by simp)
    have hcs : ∀ x ∈ cs, isDigitPy x = true := fun x hx => hds x (by simp [hx])
    obtain ⟨ht, hd⟩ := ih hcs
    simp [List.takeWhile_cons, List.dropWhile_cons, hc, ht, hd]

lemma dropWhile_eq_self_of {p : Char → Bool} {l : List Char} (h : ∀ c ∈ l, p c = false) :
    l.dropWhile p = l := by
  cases l with
  | nil => rfl
  | cons c cs => simp [List.dropWhile_cons, h c (by simp)]

lemma parseSeg_present {ds : List Char} (u : Char) (rest : List Char)
    (hne : ds ≠ []) (hds : ∀ c ∈ ds, isDigitPy c = true) (hu : isDigitPy u = false) :
    parseSeg u (ds ++ u :: rest) = (some (natOfDigits ds), rest) := by
  obtain ⟨ht, hd⟩ := @takeWhile_digits_append ds u rest hds hu
  simp only [parseSeg]
  rw [ht, hd]
  simp [hne]

lemma parseSeg_absent {u : Char} {s : List Char}
    (h : s.takeWhile isDigitPy = [] ∨ (s.dropWhile isDigitPy).head? ≠ some u) :
    parseSeg u s = (none, s) := by
  unfold parseSeg
  rcases h with h | h
  · simp [h]
  · simp [h]

/-- Validity of a rendered segment list: each segment a digit run, each
unit letter neither a digit nor whitespace. -/
def TailOk (l : List (Char × Option (List Char))) : Prop :=
  ∀ p ∈ l, segOkPy p.2 = true ∧ isDigitPy p.1 = false ∧ isSpacePy p.1 = false

lemma segOk_some {ds : List Char} (h : segOk (some ds) = true) :
    ds ≠ [] ∧ ∀ c ∈ ds, c.isDigit = true := by
  simp only [segOk, Bool.and_eq_true, Bool.not_eq_true', List.all_eq_true] at h
  refine ⟨?_, h.2⟩
  intro hnil
  rw [hnil] at h
  simp at h

lemma segOkPy_some {ds : List Char} (h : segOkPy (some ds) = true) :
    ds ≠ [] ∧ ∀ c ∈ ds, isDigitPy c = true := by
  simp only [segOkPy, Bool.and_eq_true, Bool.not_eq_true', List.all_eq_true] at h
  refine ⟨?_, h.2⟩
  intro hnil
  rw [hnil] at h
  simp at h

lemma segOk_imp_py {o : Option (List Char)} (h : segOk o = true) : segOkPy o = true := by
  cases o with
  | none => rfl
  | some ds =>
    obtain ⟨h1, h2⟩ := segOk_some h
    simp only [segOkPy, Bool.and_eq_true, Bool.not_eq_true', List.all_eq_true]
    constructor
    · cases ds with
      | nil => exact absurd rfl h1
      | cons a t => rfl
    · exact fun c hc => isDigitPy_of_ascii (h2 c hc)

lemma renderTail_no_space {l : List (Char × Option (List Char))} (h : TailOk l) :
    ∀ c ∈ renderTail l, isSpacePy c = false := by
  induction l with
  | nil => simp [renderTail]
  | cons p rest ih =>
    rcases p with ⟨u, o⟩
    have hp := h (u, o) (by simp)
    have hrest : TailOk rest := fun q hq => h q (by simp [hq])
    intro c hc
    simp only [renderTail] at hc
    cases o with
    | none =>
      exact ih hrest c (by simpa [segStr] using hc)
    | some ds =>
      simp only [segStr, List.mem_append, List.mem_cons, List.not_mem_nil,
        or_false] at hc
      rcases hc with (hc | rfl) | hc
      · exact pyDigit_not_space ((segOkPy_some hp.1).2 c hc)
      · exact hp.2.2
      · exact ih hrest c hc

lemma renderTail_head_or {l : List (Char × Option (List Char))} (h : TailOk l)
    (u : Char) (hu : ∀ p ∈ l, p.1 ≠ u) :
    (renderTail l).takeWhile isDigitPy = [] ∨
      ((renderTail l).dropWhile isDigitPy).head? ≠ some u := by
  induction l with
  | nil => left; simp [renderTail]
  | cons p rest ih =>
    rcases p with ⟨u1, o⟩
    have hp := h (u1, o) (by simp)
    have hrest : TailOk rest := fun q hq => h q (by simp [hq])
    have hurest : ∀ q ∈ rest, q.1 ≠ u := fun q hq => hu q (by simp [hq])
    cases o with
    | none =>
      simpa [renderTail, segStr] using ih hrest hurest
    | some ds =>
      right
      obtain ⟨hne, hds⟩ := segOkPy_some hp.1
      have he : renderTail ((u1, some ds) :: rest) = ds ++ u1 :: renderTail rest := by
        simp [renderTail, segStr]
      rw [he, (takeWhile_digits_append hds hp.2.1).2]
      simp only [List.head?_cons, ne_eq, Option.some_inj]
      exact hu (u1, some ds) (by simp)

lemma parseSeg_renderTail (u : Char) (o : Option (List Char))
    (l : List (Char × Option (List Char))) (ho : segOkPy o = true)
    (hu : isDigitPy u = false) (hl : TailOk l) (hne : ∀ p ∈ l, p.1 ≠ u) :
    parseSeg u (segStr o u ++ renderTail l) = (o.map natOfDigits, renderTail l) := by
  cases o with
  | none =>
    simp only [segStr, List.nil_append, Option.map_none']
    exact parseSeg_absent (renderTail_head_or hl u hne)
  | some ds =>
    obtain ⟨hne', hds⟩ := segOkPy_some ho
    have he : segStr (some ds) u ++ renderTail l = ds ++ u :: renderTail l := by
      simp [segStr]
    rw [he, parseSeg_present u (renderTail l) hne' hds hu]
    simp

lemma stripChars_eq_self {l : List Char} (h : ∀ c ∈ l, isSpacePy c = false) :
    stripChars l = l := by
  unfold stripChars
  rw [dropWhile_eq_self_of h,
    dropWhile_eq_self_of (fun c hc => h c (List.mem_reverse.mp hc))]
  exact List.reverse_reverse l

lemma roundFloat_small {n : Nat} (h : n < 2 ^ 53) : roundFloat n = n := by
  have he : floatUlpExp n = 0 := by
    rw [floatUlpExp, show List.range 64 = 0 :: ((List.range 63).map (· + 1)) from by decide]
    rw [List.find?_cons_of_pos]
    · rfl
    · simpa using h
  simp [roundFloat, he]

lemma matchGroups_render (od oh om os : Option (List Char))
    (hd : segOkPy od = true) (hh : segOkPy oh = true) (hm : segOkPy om = true)
    (hs : segOkPy os = true) :
    matchGroups (renderTail [('d', od), ('h', oh), ('m', om), ('s', os)]) =
      some (od.map natOfDigits, oh.map natOfDigits, om.map natOfDigits,
        os.map natOfDigits) := by
  have hT3 : TailOk [('h', oh), ('m', om), ('s', os)] := by
    intro p hp
    simp only [List.mem_cons, List.not_mem_nil, or_false] at hp
    rcases hp with rfl | rfl | rfl
    · exact ⟨hh, (by decide : isDigitPy 'h' = false), (by decide : isSpacePy 'h' = false)⟩
    · exact ⟨hm, (by decide : isDigitPy 'm' = false), (by decide : isSpacePy 'm' = false)⟩
    · exact ⟨hs, (by decide : isDigitPy 's' = false), (by decide : isSpacePy 's' = false)⟩
  have hT2 : TailOk [('m', om), ('s', os)] := fun p hp => hT3 p (by simp at hp ⊢; tauto)
  have hT1 : TailOk [('s', os)] := fun p hp => hT2 p (by simp at hp ⊢; tauto)
  have hT0 : TailOk ([] : List (Char × Option (List Char))) := fun p hp => absurd hp (by simp)
  have hR4 : renderTail [('d', od), ('h', oh), ('m', om), ('s', os)] =
      segStr od 'd' ++ (segStr oh 'h' ++ (segStr om 'm' ++ segStr os 's')) := by
    simp [renderTail]
  have hR3 : renderTail [('h', oh), ('m', om), ('s', os)] =
      segStr oh 'h' ++ (segStr om 'm' ++ segStr os 's') := by
    simp [renderTail]
  have hR2 : renderTail [('m', om), ('s', os)] = segStr om 'm' ++ segStr os 's' := by
    simp [renderTail]
  have hR1 : renderTail [('s', os)] = segStr os 's' := by
    simp [renderTail]
  have s1 := parseSeg_renderTail 'd' od [('h', oh), ('m', om), ('s', os)] hd (by decide) hT3
    (by intro p hp; simp only [List.mem_cons, List.not_mem_nil, or_false] at hp
        rcases hp with rfl | rfl | rfl <;> simp)
  have s2 := parseSeg_renderTail 'h' oh [('m', om), ('s', os)] hh (by decide) hT2
    (by intro p hp; simp only [List.mem_cons, List.not_mem_nil, or_false] at hp
        rcases hp with rfl | rfl <;> simp)
  have s3 := parseSeg_renderTail 'm' om [('s', os)] hm (by decide) hT1
    (by intro p hp; simp only [List.mem_cons, List.not_mem_nil, or_false] at hp
        rcases hp with rfl
        simp)
  have s4 := parseSeg_renderTail 's' os [] hs (by decide) hT0 (by intro p hp; simp at hp)
  have w3 := dropWhile_eq_self_of (renderTail_no_space hT3)
  have w2 := dropWhile_eq_self_of (renderTail_no_space hT2)
  have w1 := dropWhile_eq_self_of (renderTail_no_space hT1)
  rw [hR3] at s1 w3
  rw [hR2] at s2 w2
  rw [hR1] at s3 w1
  rw [show renderTail ([] : List (Char × Option (List Char))) = [] from rfl,
    List.append_nil] at s4
  simp only [matchGroups, hR4]
  rw [s1]
  dsimp only
  rw [w3, s2]
  dsimp only
  rw [w2, s3]
  dsimp only
  rw [w1, s4]
  simp

/-- C5 counterexample: the parser does not return the exact
`(d*86400 + h*3600 + m*60 + s) * 1000` on every grammar input.
"1000000000d" exceeds the `timedelta` bound, so the program raises
`OverflowError` instead of returning a value; and "999999999d23h59m59s"
is large enough that the float multiplication in
`total_seconds() * 1000` rounds, so the program returns
86,399,999,999,999,008 instead of the exact 86,399,999,999,999,000. -/
theorem parse_duration_exact_value_cex :
    parse_duration "1000000000d" = Except.error DurationError.overflow ∧
    parse_duration "999999999d23h59m59s" = Except.ok 86399999999999008 ∧
    86399999999999008 ≠ (999999999 * 86400 + 23 * 3600 + 59 * 60 + 59) * 1000 := by
  refine ⟨by decide, by decide, by decide⟩

/-- C5 amended: every string of the duration grammar — optional `<N>d`,
`<N>h`, `<N>m`, `<N>s` segments of decimal digits in that fixed order, at
least one present — whose total fits the `timedelta` bound parses to the
IEEE-double rounding of `(d*86400 + h*3600 + m*60 + s) * 1000`
milliseconds, which is the exact value whenever that total is below
`2 ^ 53`; beyond the bound the parser raises `OverflowError` rather than
returning a value. -/
theorem parse_duration_grammar_value (od oh om os : Option (List Char))
    (hd : segOk od = true) (hh : segOk oh = true) (hm : segOk om = true)
    (hs : segOk os = true)
    (hne : ¬(od = none ∧ oh = none ∧ om = none ∧ os = none))
    (hbound : (od.map natOfDigits).getD 0 * 86400 + (oh.map natOfDigits).getD 0 * 3600 +
      (om.map natOfDigits).getD 0 * 60 + (os.map natOfDigits).getD 0 ≤ timedeltaMaxSec) :
    parse_duration ⟨renderTail [('d', od), ('h', oh), ('m', om), ('s', os)]⟩ =
      Except.ok (roundFloat (((od.map natOfDigits).getD 0 * 86400 +
        (oh.map natOfDigits).getD 0 * 3600 + (om.map natOfDigits).getD 0 * 60 +
        (os.map natOfDigits).getD 0) * 1000)) ∧
    (((od.map natOfDigits).getD 0 * 86400 + (oh.map natOfDigits).getD 0 * 3600 +
        (om.map natOfDigits).getD 0 * 60 + (os.map natOfDigits).getD 0) * 1000 < 2 ^ 53 →
      parse_duration ⟨renderTail [('d', od), ('h', oh), ('m', om), ('s', os)]⟩ =
        Except.ok (((od.map natOfDigits).getD 0 * 86400 +
          (oh.map natOfDigits).getD 0 * 3600 + (om.map natOfDigits).getD 0 * 60 +
          (os.map natOfDigits).getD 0) * 1000)) := by
  have hT4 : TailOk [('d', od), ('h', oh), ('m', om), ('s', os)] := by
    intro p hp
    simp only [List.mem_cons, List.not_mem_nil, or_false] at hp
    rcases hp with rfl | rfl | rfl | rfl
    · exact ⟨segOk_imp_py hd, (by decide : isDigitPy 'd' = false),
        (by decide : isSpacePy 'd' = false)⟩
    · exact ⟨segOk_imp_py hh, (by decide : isDigitPy 'h' = false),
        (by decide : isSpacePy 'h' = false)⟩
    · exact ⟨segOk_imp_py hm, (by decide : isDigitPy 'm' = false),
        (by decide : isSpacePy 'm' = false)⟩
    · exact ⟨segOk_imp_py hs, (by decide : isDigitPy 's' = false),
        (by decide : isSpacePy 's' = false)⟩
  have hns := renderTail_no_space hT4
  have hdata : (String.mk (renderTail [('d', od), ('h', oh), ('m', om), ('s', os)])).data =
      renderTail [('d', od), ('h', oh), ('m', om), ('s', os)] := rfl
  have hcond : ¬(od.map natOfDigits = none ∧ oh.map natOfDigits = none ∧
      om.map natOfDigits = none ∧ os.map natOfDigits = none) := by
    simpa [Option.map_eq_none'] using hne
  have hover : ¬ timedeltaMaxSec < (od.map natOfDigits).getD 0 * 86400 +
      (oh.map natOfDigits).getD 0 * 3600 + (om.map natOfDigits).getD 0 * 60 +
      (os.map natOfDigits).getD 0 := Nat.not_lt.mpr hbound
  have hA : parse_duration ⟨renderTail [('d', od), ('h', oh), ('m', om), ('s', os)]⟩ =
      Except.ok (roundFloat (((od.map natOfDigits).getD 0 * 86400 +
        (oh.map natOfDigits).getD 0 * 3600 + (om.map natOfDigits).getD 0 * 60 +
        (os.map natOfDigits).getD 0) * 1000)) := by
    unfold parse_duration
    rw [hdata, stripChars_eq_self hns, matchGroups_render od oh om os (segOk_imp_py hd)
      (segOk_imp_py hh) (segOk_imp_py hm) (segOk_imp_py hs)]
    simp [hcond, hover]
    intro h1 h2 h3 h4
    exact hne ⟨h1, h2, h3, h4⟩
  exact ⟨hA, fun hsmall => by rw [hA, roundFloat_small hsmall]⟩

/-- C5 witness: "1d2h30m" parses to 95,400,000 ms through the grammar
theorem applied at the segments 1, 2, 30 — a total far below both the
`timedelta` bound and the float-exactness bound `2 ^ 53`. -/
theorem parse_duration_grammar_value_witness :
    parse_duration "1d2h30m" = Except.ok 95400000 := by
  have h := parse_duration_grammar_value (some ['1']) (some ['2']) (some ['3', '0']) none
    (by decide) (by decide) (by decide) (by decide) (by simp) (by decide)
  rw [show ("1d2h30m" : String) = ⟨renderTail [('d', some ['1']), ('h', some ['2']),
    ('m', some ['3', '0']), ('s', none)]⟩ by decide]
  rw [h.2 (by decide)]
  decide

lemma parseSeg_shape (u : Char) (s : List Char) :
    ((parseSeg u s).1 = none ∧ (parseSeg u s).2 = s) ∨
    ∃ ds, ds ≠ [] ∧ (∀ c ∈ ds, isDigitPy c = true) ∧
      (parseSeg u s).1 = some (natOfDigits ds) ∧ s = ds ++ u :: (parseSeg u s).2 := by
  simp only [parseSeg]
  by_cases h : s.takeWhile isDigitPy ≠ [] ∧ (s.dropWhile isDigitPy).head? = some u
  · right
    rw [if_pos h]
    refine ⟨s.takeWhile isDigitPy, h.1, fun c hc => List.mem_takeWhile_imp hc, rfl, ?_⟩
    conv_lhs => rw [← List.takeWhile_append_dropWhile (p := isDigitPy) (l := s)]
    rcases hd : s.dropWhile isDigitPy with _ | ⟨c, t⟩
    · rw [hd] at h
      simp at h
    · rw [hd] at h
      simp only [List.head?_cons, Option.some_inj] at h
      simp [h.2]
  · left
    rw [if_neg h]
    exact ⟨rfl, rfl⟩

lemma dropWhile_space_decomp (l : List Char) :
    ∃ w, wsOkPy w = true ∧ l = w ++ l.dropWhile isSpacePy := by
  refine ⟨l.takeWhile isSpacePy, ?_, (List.takeWhile_append_dropWhile isSpacePy l).symm⟩
  rw [wsOkPy, List.all_eq_true]
  exact fun c hc => List.mem_takeWhile_imp hc

lemma strip_decomp (l : List Char) :
    ∃ w0 w4, wsOkPy w0 = true ∧ wsOkPy w4 = true ∧ l = w0 ++ stripChars l ++ w4 := by
  refine ⟨l.takeWhile isSpacePy, ((l.dropWhile isSpacePy).reverse.takeWhile isSpacePy).reverse,
    ?_, ?_, ?_⟩
  · rw [wsOkPy, List.all_eq_true]
    exact fun c hc => List.mem_takeWhile_imp hc
  · rw [wsOkPy, List.all_eq_true]
    exact fun c hc => List.mem_takeWhile_imp (List.mem_reverse.mp hc)
  · rw [List.append_assoc]
    conv_lhs => rw [← List.takeWhile_append_dropWhile (p := isSpacePy) (l := l)]
    congr 1
    conv_lhs => rw [← List.reverse_reverse (l.dropWhile isSpacePy),
      ← List.takeWhile_append_dropWhile (p := isSpacePy)
        (l := (l.dropWhile isSpacePy).reverse),
      List.reverse_append]
    rfl

lemma parseSeg_stage (u : Char) (s : List Char) :
    ∃ o, segOkPy o = true ∧ (parseSeg u s).1 = o.map natOfDigits ∧
      s = segStr o u ++ (parseSeg u s).2 := by
  rcases parseSeg_shape u s with ⟨h1, h2⟩ | ⟨ds, hne, hdig, h1, h2⟩
  · exact ⟨none, rfl, by simp [h1], by simpa [segStr] using h2.symm⟩
  · refine ⟨some ds, ?_, by simp [h1], ?_⟩
    · simp only [segOkPy, Bool.and_eq_true, Bool.not_eq_true', List.all_eq_true]
      refine ⟨?_, hdig⟩
      cases ds with
      | nil => exact absurd rfl hne
      | cons a t => rfl
    · conv_lhs => rw [h2]
      simp [segStr]

/-- C6 amended: the parser raises the invalid-format `ValueError` exactly
on the inputs outside the program's Unicode grammar (segments of Unicode
decimal digits with Unicode whitespace around and between them, at least
one segment present): every input outside that grammar fails to parse. -/
theorem parse_fails_outside_grammar (s : String) (h : ¬ DurationGrammarPy s) :
    parse_duration s = Except.error DurationError.invalidFormat := by
  by_contra hne
  apply h
  rcases hmg : matchGroups (stripChars s.data) with _ | ⟨vd, vh, vm, vs⟩
  · exact absurd (by unfold parse_duration; rw [hmg]) hne
  · by_cases hall : vd = none ∧ vh = none ∧ vm = none ∧ vs = none
    · refine absurd ?_ hne
      unfold parse_duration
      rw [hmg]
      simp [hall]
    · simp only [matchGroups] at hmg
      set t0 := stripChars s.data with ht0
      set r1 := parseSeg 'd' t0 with hr1
      set t1 := r1.2.dropWhile isSpacePy with ht1
      set r2 := parseSeg 'h' t1 with hr2
      set t2 := r2.2.dropWhile isSpacePy with ht2
      set r3 := parseSeg 'm' t2 with hr3
      set t3 := r3.2.dropWhile isSpacePy with ht3
      set r4 := parseSeg 's' t3 with hr4
      have hlast : r4.2 = [] := by
        by_contra hcon
        rw [if_neg hcon] at hmg
        exact absurd hmg (by simp)
      rw [if_pos hlast] at hmg
      simp only [Option.some_inj, Prod.mk.injEq] at hmg
      obtain ⟨ed, eh, em, es⟩ := hmg
      have S1 := parseSeg_stage 'd' t0
      rw [← hr1] at S1
      obtain ⟨od, hodok, hod1, hodeq⟩ := S1
      obtain ⟨w1, hw1, hw1eq⟩ := dropWhile_space_decomp r1.2
      rw [← ht1] at hw1eq
      have S2 := parseSeg_stage 'h' t1
      rw [← hr2] at S2
      obtain ⟨oh, hohok, hoh1, hoheq⟩ := S2
      obtain ⟨w2, hw2, hw2eq⟩ := dropWhile_space_decomp r2.2
      rw [← ht2] at hw2eq
      have S3 := parseSeg_stage 'm' t2
      rw [← hr3] at S3
      obtain ⟨om, homok, hom1, homeq⟩ := S3
      obtain ⟨w3, hw3, hw3eq⟩ := dropWhile_space_decomp r3.2
      rw [← ht3] at hw3eq
      have S4 := parseSeg_stage 's' t3
      rw [← hr4] at S4
      obtain ⟨os, hosok, hos1, hoseq⟩ := S4
      obtain ⟨w0, w4, hw0, hw4, hsd⟩ := strip_decomp s.data
      rw [← ht0] at hsd
      refine ⟨w0, od, w1, oh, w2, om, w3, os, w4,
        hw0, hodok, hw1, hohok, hw2, homok, hw3, hosok, hw4, ?_, ?_⟩
      · rintro ⟨hn1, hn2, hn3, hn4⟩
        refine hall ⟨?_, ?_, ?_, ?_⟩
        · rw [← ed, hod1, hn1]; rfl
        · rw [← eh, hoh1, hn2]; rfl
        · rw [← em, hom1, hn3]; rfl
        · rw [← es, hos1, hn4]; rfl
      · rw [hsd, hodeq, hw1eq, hoheq, hw2eq, homeq, hw3eq, hoseq, hlast]
        simp [List.append_assoc]

lemma segStr_eq_nil {o : Option (List Char)} {u : Char} (h : segStr o u = []) :
    o = none := by
  cases o with
  | none => rfl
  | some ds => simp [segStr] at h

lemma grammar_chars {s : String} (hg : DurationGrammar s) :
    ∀ c ∈ s.data,
      (isSpace c || c.isDigit || c = 'd' || c = 'h' || c = 'm' || c = 's') = true := by
  obtain ⟨w0, od, w1, oh, w2, om, w3, os, w4, hw0, hod, hw1, hoh, hw2, hom, hw3, hos,
    hw4, _, heq⟩ := hg
  have hws : ∀ (w : List Char), wsOk w = true → ∀ c ∈ w,
      (isSpace c || c.isDigit || c = 'd' || c = 'h' || c = 'm' || c = 's') = true := by
    intro w hw c hcw
    rw [wsOk, List.all_eq_true] at hw
    simp [hw c hcw]
  have hseg : ∀ (o : Option (List Char)), segOk o = true →
      ∀ u ∈ (['d', 'h', 'm', 's'] : List Char), ∀ c ∈ segStr o u,
      (isSpace c || c.isDigit || c = 'd' || c = 'h' || c = 'm' || c = 's') = true := by
    intro o ho u hu c hc
    cases o with
    | none => simp [segStr] at hc
    | some ds =>
      obtain ⟨_, hdig⟩ := segOk_some ho
      simp only [segStr, List.mem_append, List.mem_cons, List.not_mem_nil,
        or_false] at hc
      rcases hc with hc | rfl
      · simp [hdig c hc]
      · simp only [List.mem_cons, List.not_mem_nil, or_false] at hu
        rcases hu with rfl | rfl | rfl | rfl <;> simp
  intro c hc
  rw [heq] at hc
  simp only [List.mem_append] at hc
  rcases hc with ((((((((hc | hc) | hc) | hc) | hc) | hc) | hc) | hc) | hc)
  · exact hws w0 hw0 c hc
  · exact hseg od hod 'd' (by decide) c hc
  · exact hws w1 hw1 c hc
  · exact hseg oh hoh 'h' (by decide) c hc
  · exact hws w2 hw2 c hc
  · exact hseg om hom 'm' (by decide) c hc
  · exact hws w3 hw3 c hc
  · exact hseg os hos 's' (by decide) c hc
  · exact hws w4 hw4 c hc

/-- C6 counterexample: the program's regex classes are Unicode, so the
parser accepts strings outside the claim's digits-only grammar: "٥s"
(ARABIC-INDIC DIGIT FIVE, then 's') matches no decomposition of the
grammar, yet the parser returns 5000 ms. -/
theorem parse_accepts_outside_grammar_cex :
    ¬ DurationGrammar "٥s" ∧ parse_duration "٥s" = Except.ok 5000 := by
  constructor
  · intro hg
    have h5 := grammar_chars hg '٥' (by decide)
    exact absurd h5 (by decide)
  · decide

lemma empty_not_in_grammarPy : ¬ DurationGrammarPy "" := by
  rintro ⟨w0, od, w1, oh, w2, om, w3, os, w4, _, _, _, _, _, _, _, _, _, hne, heq⟩
  have hdata : ("" : String).data = [] := rfl
  rw [hdata] at heq
  simp only [List.nil_eq, List.append_eq_nil] at heq
  obtain ⟨⟨⟨⟨⟨⟨⟨⟨h0, h1⟩, h2⟩, h3⟩, h4⟩, h5⟩, h6⟩, h7⟩, h8⟩ := heq
  exact hne ⟨segStr_eq_nil h1, segStr_eq_nil h3, segStr_eq_nil h5, segStr_eq_nil h7⟩

/-- C6 witness: the empty string — no segment at all — is outside the
program's grammar, and the parser fails on it with the invalid-format
error. -/
theorem parse_fails_outside_grammar_witness :
    parse_duration "" = Except.error DurationError.invalidFormat :=
  parse_fails_outside_grammar "" empty_not_in_grammarPy
